import Mathlib

/-!
# Weight2Plate: verification of the plate solver and drop-set arithmetic

A shallow embedding of `src/main.py` of the Weight2Plate repository.
Python floats are modelled as rationals (`ℚ`); Python lists as `List ℚ`.

The embedded pieces:

* the denomination tables `PLATES_LBS` and `PLATES_KG` (lines 8–9);
* the greedy plate loop of `calculate_plates` (lines 28–35), here `greedy`,
  parameterized by the plate list (the Python code fixes `plates = PLATES_LBS`
  at line 22; `calculate_plates` below instantiates `greedy` with it);
* `calculate_plates` itself (lines 20–35), including the per-side division
  and the negative guard;
* the drop-set arithmetic of `main` (lines 154–157), here `computeDropSet`,
  keeping the Python variable names as field names;
* the two solver invocations of `main` (lines 184–185), here `final_plates`
  and `drop_plates`;
* the configuration store: `save_configuration` (lines 86–104) as a pure
  state transformer on the list of stored configurations, and the
  load-by-name selection of `main` line 126 as `selectConfig`.
-/

/-- Available weight plates in pounds (`PLATES_LBS`, line 8). -/
def PLATES_LBS : List ℚ := [45, 35, 25, 10, 5, 2.5]

/-- Available weight plates in kilograms (`PLATES_KG`, line 9). -/
def PLATES_KG : List ℚ := [20, 15, 10, 5, 2.5, 1.25]

/-- The greedy loop of `calculate_plates` (lines 28–35): for each plate
denomination in order, `count = int(remaining_weight // plate)`; if
`count > 0`, append `count` copies of the plate and subtract
`plate * count` from the remaining weight.  The plate list is a parameter
(the source fixes it to `PLATES_LBS`; the spec's `PlateSolver.solve` takes
it as the `denominations` argument). -/
def greedy : List ℚ → ℚ → List ℚ
  | [], _ => []
  | p :: ps, rem =>
    let count : ℤ := ⌊rem / p⌋
    if count > 0 then
      List.replicate count.toNat p ++ greedy ps (rem - p * count)
    else
      greedy ps rem

/-- Final remaining weight after the greedy loop of `calculate_plates`
(the value of `remaining_weight` at line 35). -/
def greedyRem : List ℚ → ℚ → ℚ
  | [], rem => rem
  | p :: ps, rem =>
    let count : ℤ := ⌊rem / p⌋
    if count > 0 then
      greedyRem ps (rem - p * count)
    else
      greedyRem ps rem

/-- `calculate_plates(target_weight, bar_weight)` (lines 20–35):
computes the per-side remaining weight `(target_weight - bar_weight) / 2`,
returns the empty list when it is negative (line 25), and otherwise runs
the greedy loop over `PLATES_LBS`. -/
def calculate_plates (target_weight bar_weight : ℚ) : List ℚ :=
  let remaining_weight := (target_weight - bar_weight) / 2
  if remaining_weight < 0 then []
  else greedy PLATES_LBS remaining_weight

/-- Modelled from the spec (§4.1): `PlateSolver.solve(perSideWeight,
denominations)` — the solver applied directly to a per-side weight, with
the negative guard, used to compare against the implementation's way of
invoking `calculate_plates` (claim about refinement).  Nothing in
`src/main.py` takes a per-side weight directly; this follows the spec's
words. -/
def solve (perSideWeight : ℚ) (denominations : List ℚ) : List ℚ :=
  if perSideWeight < 0 then []
  else greedy denominations perSideWeight

/-- Result of the drop-set arithmetic of `main` (lines 154–157), with the
Python variable names.  `drop_side_weight` is displayed as "Weight 2
Remove" (line 161, the spec's `weightToRemove`), `remaining_weight` as
"Drop Set Weight" (line 162, the spec's `dropSetWeight`), and
`remaining_weight_per_side` as "Weight Per Side, Drop" (line 163, the
spec's `dropSetPerSide`). -/
structure DropSetResult where
  final_set_weight : ℚ
  drop_side_weight : ℚ
  remaining_weight : ℚ
  remaining_weight_per_side : ℚ
deriving DecidableEq, Repr

/-- The drop-set arithmetic of `main` (lines 154–157). -/
def computeDropSet (final_side_weight bar_weight percent_drop : ℚ) :
    DropSetResult :=
  let final_set_weight := final_side_weight * 2 + bar_weight
  let drop_side_weight := final_set_weight * (1 - percent_drop / 100)
  let remaining_weight := final_set_weight - drop_side_weight
  let remaining_weight_per_side := (remaining_weight - bar_weight) / 2
  ⟨final_set_weight, drop_side_weight, remaining_weight,
    remaining_weight_per_side⟩

/-- `final_plates = calculate_plates(final_set_weight, bar_weight)`
(line 184). -/
def final_plates (final_side_weight bar_weight percent_drop : ℚ) : List ℚ :=
  calculate_plates
    (computeDropSet final_side_weight bar_weight percent_drop).final_set_weight
    bar_weight

/-- `drop_plates = calculate_plates(remaining_weight_per_side * 2 +
bar_weight, bar_weight)` (line 185). -/
def drop_plates (final_side_weight bar_weight percent_drop : ℚ) : List ℚ :=
  calculate_plates
    ((computeDropSet final_side_weight bar_weight
        percent_drop).remaining_weight_per_side * 2 + bar_weight)
    bar_weight

/-- A stored configuration (`config` dict of `save_configuration`,
lines 88–93). -/
structure Config where
  name : String
  final_side_weight : ℚ
  barbell_type : String
  percent_drop : ℚ
deriving DecidableEq, Repr

/-- `save_configuration` (lines 86–104) as a pure state transformer: the
file contents are the state, and the function appends the new
configuration unconditionally (line 101). -/
def save_configuration (name : String) (final_side_weight : ℚ)
    (barbell_type : String) (percent_drop : ℚ) (configurations : List Config) :
    List Config :=
  configurations ++ [⟨name, final_side_weight, barbell_type, percent_drop⟩]

/-- The load-by-name selection of `main` line 126:
`next(config for config in saved_configs if config["name"] == selected_config)`
takes the first stored configuration whose name matches; modelled with
`Option` for the no-match case the UI never triggers. -/
def selectConfig (selected : String) (saved_configs : List Config) :
    Option Config :=
  saved_configs.find? (fun config => config.name = selected)

/-- No two stored configurations share a name. -/
def uniqueNames (configurations : List Config) : Prop :=
  configurations.Pairwise (fun a b => a.name ≠ b.name)

instance (cs : List Config) : Decidable (uniqueNames cs) :=
  inferInstanceAs (Decidable (cs.Pairwise _))

/-! ## Helper lemmas about the greedy loop -/

/-- The plates returned by the greedy loop sum to what was consumed from the
remaining weight. -/
theorem greedy_sum (D : List ℚ) (rem : ℚ) :
    (greedy D rem).sum = rem - greedyRem D rem := by
  induction D generalizing rem with
  | nil => simp [greedy, greedyRem]
  | cons p ps ih =>
    simp only [greedy, greedyRem]
    by_cases hc : (0 : ℤ) < ⌊rem / p⌋
    · rw [if_pos hc, if_pos hc, List.sum_append, List.sum_replicate, ih]
      have hnn : (0 : ℤ) ≤ ⌊rem / p⌋ := le_of_lt hc
      have hcast : ((⌊rem / p⌋.toNat : ℕ) : ℚ) = ((⌊rem / p⌋ : ℤ) : ℚ) := by
        exact_mod_cast Int.toNat_of_nonneg hnn
      rw [nsmul_eq_mul, hcast]
      ring
    · rw [if_neg hc, if_neg hc, ih]

/-- The greedy loop never increases the remaining weight. -/
theorem greedyRem_le (D : List ℚ) (rem : ℚ) (hD : ∀ p ∈ D, 0 < p) :
    greedyRem D rem ≤ rem := by
  induction D generalizing rem with
  | nil => simp [greedyRem]
  | cons p ps ih =>
    have hp : 0 < p := hD p (List.mem_cons_self p ps)
    have hps : ∀ q ∈ ps, 0 < q := fun q hq => hD q (List.mem_cons_of_mem p hq)
    simp only [greedyRem]
    by_cases hc : (0 : ℤ) < ⌊rem / p⌋
    · rw [if_pos hc]
      have h1 : (1 : ℚ) ≤ (⌊rem / p⌋ : ℚ) := by exact_mod_cast hc
      have h2 : 0 < p * (⌊rem / p⌋ : ℚ) :=
        mul_pos hp (lt_of_lt_of_le one_pos h1)
      calc greedyRem ps (rem - p * (⌊rem / p⌋ : ℚ))
          ≤ rem - p * (⌊rem / p⌋ : ℚ) := ih _ hps
        _ ≤ rem := by linarith
    · rw [if_neg hc]
      exact ih rem hps

/-- Starting from a nonnegative remaining weight, the greedy loop keeps it
nonnegative. -/
theorem greedyRem_nonneg (D : List ℚ) (rem : ℚ) (hD : ∀ p ∈ D, 0 < p)
    (h0 : 0 ≤ rem) : 0 ≤ greedyRem D rem := by
  induction D generalizing rem with
  | nil => simpa [greedyRem] using h0
  | cons p ps ih =>
    have hp : 0 < p := hD p (List.mem_cons_self p ps)
    have hps : ∀ q ∈ ps, 0 < q := fun q hq => hD q (List.mem_cons_of_mem p hq)
    simp only [greedyRem]
    by_cases hc : (0 : ℤ) < ⌊rem / p⌋
    · rw [if_pos hc]
      refine ih _ hps ?_
      have hfl : (⌊rem / p⌋ : ℚ) ≤ rem / p := Int.floor_le _
      have : p * (⌊rem / p⌋ : ℚ) ≤ p * (rem / p) :=
        mul_le_mul_of_nonneg_left hfl (le_of_lt hp)
      have hdiv : p * (rem / p) = rem := by field_simp
      linarith [hdiv ▸ this]
    · rw [if_neg hc]
      exact ih rem hps h0

/-- After the greedy loop visits a plate denomination, the remaining weight
stays strictly below every denomination of the list. -/
theorem greedyRem_lt (D : List ℚ) (rem : ℚ) (hD : ∀ p ∈ D, 0 < p) :
    ∀ q ∈ D, greedyRem D rem < q := by
  induction D generalizing rem with
  | nil => intro q hq; exact absurd hq (List.not_mem_nil q)
  | cons p ps ih =>
    intro q hq
    have hp : 0 < p := hD p (List.mem_cons_self p ps)
    have hps : ∀ r ∈ ps, 0 < r := fun r hr => hD r (List.mem_cons_of_mem p hr)
    simp only [greedyRem]
    by_cases hc : (0 : ℤ) < ⌊rem / p⌋
    · rw [if_pos hc]
      have hlt : rem - p * (⌊rem / p⌋ : ℚ) < p := by
        have hfr : rem / p - 1 < (⌊rem / p⌋ : ℚ) := Int.sub_one_lt_floor _
        have := mul_lt_mul_of_pos_left hfr hp
        have hdiv : p * (rem / p) = rem := by field_simp
        nlinarith
      rcases List.mem_cons.mp hq with hq | hq
      · subst hq
        exact lt_of_le_of_lt (greedyRem_le ps _ hps) hlt
      · exact ih _ hps q hq
    · rw [if_neg hc]
      have hrem : rem < p := by
        have h1 : ⌊rem / p⌋ ≤ 0 := not_lt.mp hc
        have h2 : rem / p < 1 := by
          have := Int.lt_floor_add_one (rem / p)
          have h3 : (⌊rem / p⌋ : ℚ) ≤ 0 := by exact_mod_cast h1
          linarith
        have := (div_lt_one hp).mp h2
        linarith
      rcases List.mem_cons.mp hq with hq | hq
      · subst hq
        exact lt_of_le_of_lt (greedyRem_le ps rem hps) hrem
      · exact ih rem hps q hq

/-- Every plate returned by the greedy loop is one of the denominations. -/
theorem greedy_mem (D : List ℚ) (rem : ℚ) :
    ∀ x ∈ greedy D rem, x ∈ D := by
  induction D generalizing rem with
  | nil => simp [greedy]
  | cons p ps ih =>
    intro x hx
    simp only [greedy] at hx
    by_cases hc : (0 : ℤ) < ⌊rem / p⌋
    · rw [if_pos hc] at hx
      rcases List.mem_append.mp hx with hx | hx
      · rw [List.eq_of_mem_replicate hx]
        exact List.mem_cons_self p ps
      · exact List.mem_cons_of_mem p (ih _ x hx)
    · rw [if_neg hc] at hx
      exact List.mem_cons_of_mem p (ih rem x hx)

/-- When the denomination list is strictly descending, the greedy loop
returns its plates in non-increasing order. -/
theorem greedy_sorted (D : List ℚ) (rem : ℚ) (hD : D.Sorted (· > ·)) :
    (greedy D rem).Sorted (· ≥ ·) := by
  induction D generalizing rem with
  | nil => simp [greedy]
  | cons p ps ih =>
    rw [List.sorted_cons] at hD
    obtain ⟨hgt, hps⟩ := hD
    simp only [greedy]
    by_cases hc : (0 : ℤ) < ⌊rem / p⌋
    · rw [if_pos hc]
      rw [List.Sorted, List.pairwise_append]
      refine ⟨List.pairwise_replicate.mpr (Or.inr le_rfl), ih _ hps, ?_⟩
      intro a ha b hb
      rw [List.eq_of_mem_replicate ha]
      exact le_of_lt (hgt b (greedy_mem ps _ b hb))
    · rw [if_neg hc]
      exact ih rem hps

/-- `selectConfig` ignores configurations appended after an existing match:
the first stored configuration with the requested name wins. -/
theorem selectConfig_append (n : String) (st extra : List Config)
    (h : ∃ c ∈ st, c.name = n) :
    selectConfig n (st ++ extra) = selectConfig n st := by
  induction st with
  | nil =>
    obtain ⟨c, hc, _⟩ := h
    exact absurd hc (List.not_mem_nil c)
  | cons c0 cs ih =>
    by_cases h0 : c0.name = n
    · simp only [selectConfig, List.cons_append]
      rw [List.find?_cons_of_pos, List.find?_cons_of_pos] <;>
        simp [h0]
    · have h2 : ∃ c ∈ cs, c.name = n := by
        obtain ⟨c, hc, hcn⟩ := h
        rcases List.mem_cons.mp hc with rfl | hc
        · exact absurd hcn h0
        · exact ⟨c, hc, hcn⟩
      simp only [selectConfig, List.cons_append]
      rw [List.find?_cons_of_neg, List.find?_cons_of_neg]
      · exact ih h2
      · simp [h0]
      · simp [h0]

/-! ## Claims -/

/-- C1: for every finalSideWeight, barWeight and dropPercent, the drop-set
computation of `main` (lines 154–157) produces exactly, and in this order:
`finalSetWeight = finalSideWeight * 2 + barWeight`;
`weightToRemove = finalSetWeight * (1 - dropPercent/100)` (the code's
`drop_side_weight`, displayed as "Weight 2 Remove");
`dropSetWeight = finalSetWeight - weightToRemove` (the code's
`remaining_weight`); and
`dropSetPerSide = (dropSetWeight - barWeight) / 2`. -/
theorem computeDropSet_formulas
    (final_side_weight bar_weight percent_drop : ℚ) :
    (computeDropSet final_side_weight bar_weight percent_drop).final_set_weight
        = final_side_weight * 2 + bar_weight ∧
    (computeDropSet final_side_weight bar_weight percent_drop).drop_side_weight
        = (computeDropSet final_side_weight bar_weight
            percent_drop).final_set_weight * (1 - percent_drop / 100) ∧
    (computeDropSet final_side_weight bar_weight percent_drop).remaining_weight
        = (computeDropSet final_side_weight bar_weight
              percent_drop).final_set_weight -
          (computeDropSet final_side_weight bar_weight
              percent_drop).drop_side_weight ∧
    (computeDropSet final_side_weight bar_weight
          percent_drop).remaining_weight_per_side
        = ((computeDropSet final_side_weight bar_weight
              percent_drop).remaining_weight - bar_weight) / 2 := by
  refine ⟨rfl, rfl, rfl, rfl⟩

/-- C2: for every denomination set of positive plates and every
`perSideWeight ≥ 0`, the plates returned by the solver sum to at most
`perSideWeight`, and the residual is strictly below every denomination of
the set — in particular below the smallest one. -/
theorem solve_sum_le_and_residual_lt (D : List ℚ) (w : ℚ)
    (hD : ∀ p ∈ D, 0 < p) (hw : 0 ≤ w) :
    (solve w D).sum ≤ w ∧ ∀ q ∈ D, w - (solve w D).sum < q := by
  have hnot : ¬ w < 0 := not_lt.mpr hw
  simp only [solve, if_neg hnot]
  rw [greedy_sum]
  constructor
  · have := greedyRem_nonneg D w hD hw
    linarith
  · intro q hq
    have := greedyRem_lt D w hD q hq
    linarith

/-- Witness for C2 at the spec's concrete scenario 1: `PLATES_LBS` with
`perSideWeight = 62.5`. -/
theorem solve_sum_le_and_residual_lt_witness :
    (∀ p ∈ PLATES_LBS, 0 < p) ∧ (0 : ℚ) ≤ 62.5 ∧
      ((solve 62.5 PLATES_LBS).sum ≤ 62.5 ∧
        ∀ q ∈ PLATES_LBS, 62.5 - (solve 62.5 PLATES_LBS).sum < q) := by
  have h1 : ∀ p ∈ PLATES_LBS, 0 < p := by
    norm_num [PLATES_LBS]
  have h2 : (0 : ℚ) ≤ 62.5 := by norm_num
  exact ⟨h1, h2, solve_sum_le_and_residual_lt PLATES_LBS 62.5 h1 h2⟩

/-- C3 evaluation at the failing input `finalSideWeight = 70`,
`barWeight = 45`, `dropPercent = 75`: the code yields
`weightToRemove = 46.25` (not the claimed 138.75),
`dropSetWeight = 138.75` (not 46.25),
`dropSetPerSide = 46.875` (not 0.625), and a drop-set plate list of one
45-pound plate (not empty): the code removes `1 - dropPercent/100` of the
load, so a requested 75% drop removes only 25%. -/
theorem dropSet_scenario2_eval :
    (computeDropSet 70 45 75).final_set_weight = 185 ∧
    (computeDropSet 70 45 75).drop_side_weight = 46.25 ∧
    (computeDropSet 70 45 75).remaining_weight = 138.75 ∧
    (computeDropSet 70 45 75).remaining_weight_per_side = 46.875 ∧
    drop_plates 70 45 75 = [45] := by
  refine ⟨by simp only [computeDropSet]; norm_num,
    by simp only [computeDropSet]; norm_num,
    by simp only [computeDropSet]; norm_num,
    by simp only [computeDropSet]; norm_num, ?_⟩
  simp only [drop_plates, computeDropSet, calculate_plates, PLATES_LBS, greedy]
  norm_num

/-- C4: whenever the per-side remaining weight
`(target_weight - bar_weight) / 2` is negative, `calculate_plates` returns
the empty list (line 25–26); being a total function, it raises no error. -/
theorem calculate_plates_neg (target_weight bar_weight : ℚ)
    (h : (target_weight - bar_weight) / 2 < 0) :
    calculate_plates target_weight bar_weight = [] := by
  simp only [calculate_plates, if_pos h]

/-- Witness for C4: a bare 45-pound bar with target 0. -/
theorem calculate_plates_neg_witness :
    ((0 : ℚ) - 45) / 2 < 0 ∧ calculate_plates 0 45 = [] :=
  ⟨by norm_num, calculate_plates_neg 0 45 (by norm_num)⟩

/-- C5: the greedy solver on the kilogram denominations `PLATES_KG` with
per-side weight 27.5 returns one 20, one 5 and one 2.5 plate (the multiset
`{20: 1, 5: 1, 2.5: 1}`), summing to 27.5. -/
theorem greedy_kg_scenario :
    greedy PLATES_KG 27.5 = [20, 5, 2.5] ∧
      (greedy PLATES_KG 27.5).sum = 27.5 := by
  have h : greedy PLATES_KG 27.5 = [20, 5, 2.5] := by
    simp only [PLATES_KG, greedy]
    norm_num
  refine ⟨h, ?_⟩
  rw [h]
  norm_num

/-- C6: the implementation's invocations of `calculate_plates` (lines
184–185) coincide with the spec's `PlateSolver.solve` applied directly to
the per-side weights: `final_plates` equals `solve finalSideWeight` and
`drop_plates` equals `solve dropSetPerSide` — subtracting the bar weight
and halving undoes the doubling-and-adding-the-bar exactly, so the bar is
not double-counted. -/
theorem plates_solve_refinement
    (final_side_weight bar_weight percent_drop : ℚ) :
    final_plates final_side_weight bar_weight percent_drop
        = solve final_side_weight PLATES_LBS ∧
    drop_plates final_side_weight bar_weight percent_drop
        = solve (computeDropSet final_side_weight bar_weight
            percent_drop).remaining_weight_per_side PLATES_LBS := by
  constructor
  · have h1 : ((computeDropSet final_side_weight bar_weight
        percent_drop).final_set_weight - bar_weight) / 2 = final_side_weight := by
      simp only [computeDropSet]
      ring
    simp only [final_plates, calculate_plates, solve]
    rw [h1]
  · have h2 : ((computeDropSet final_side_weight bar_weight
          percent_drop).remaining_weight_per_side * 2 + bar_weight
            - bar_weight) / 2
        = (computeDropSet final_side_weight bar_weight
            percent_drop).remaining_weight_per_side := by
      ring
    simp only [drop_plates, calculate_plates, solve]
    rw [h2]

/-- C7: for every positive denomination set, every `perSideWeight ≥ 0` and
every increment `d` at least as large as the smallest denomination `m`,
the total plate weight the solver returns for `perSideWeight + d` is at
least the total it returns for `perSideWeight`. -/
theorem solve_monotone (D : List ℚ) (w d m : ℚ) (hD : ∀ p ∈ D, 0 < p)
    (hw : 0 ≤ w) (hm : m ∈ D) (hmin : ∀ q ∈ D, m ≤ q) (hd : m ≤ d) :
    (solve w D).sum ≤ (solve (w + d) D).sum := by
  have hmpos : 0 < m := hD m hm
  have hwd : 0 ≤ w + d := by linarith
  simp only [solve, if_neg (not_lt.mpr hw), if_neg (not_lt.mpr hwd)]
  rw [greedy_sum, greedy_sum]
  have h1 : 0 ≤ greedyRem D w := greedyRem_nonneg D w hD hw
  have h2 : greedyRem D (w + d) < m := greedyRem_lt D (w + d) hD m hm
  linarith

/-- Witness for C7: `PLATES_LBS`, `perSideWeight = 10`, increment 2.5 (the
smallest denomination). -/
theorem solve_monotone_witness :
    (∀ p ∈ PLATES_LBS, 0 < p) ∧ (0 : ℚ) ≤ 10 ∧ (2.5 : ℚ) ∈ PLATES_LBS ∧
      (∀ q ∈ PLATES_LBS, (2.5 : ℚ) ≤ q) ∧ (2.5 : ℚ) ≤ 2.5 ∧
      (solve 10 PLATES_LBS).sum ≤ (solve (10 + 2.5) PLATES_LBS).sum := by
  have h1 : ∀ p ∈ PLATES_LBS, 0 < p := by norm_num [PLATES_LBS]
  have h2 : (0 : ℚ) ≤ 10 := by norm_num
  have h3 : (2.5 : ℚ) ∈ PLATES_LBS := by norm_num [PLATES_LBS]
  have h4 : ∀ q ∈ PLATES_LBS, (2.5 : ℚ) ≤ q := by norm_num [PLATES_LBS]
  exact ⟨h1, h2, h3, h4, le_refl _,
    solve_monotone PLATES_LBS 10 2.5 2.5 h1 h2 h3 h4 (le_refl _)⟩

/-- C8: for every finalSideWeight and barWeight, the drop-set computation
with `dropPercent = 0` yields `weightToRemove = finalSetWeight` and
`dropSetWeight = 0`, and with `dropPercent = 100` it yields
`dropSetWeight = finalSetWeight` (no weight removed). -/
theorem computeDropSet_extremes (final_side_weight bar_weight : ℚ) :
    (computeDropSet final_side_weight bar_weight 0).drop_side_weight
        = (computeDropSet final_side_weight bar_weight 0).final_set_weight ∧
    (computeDropSet final_side_weight bar_weight 0).remaining_weight = 0 ∧
    (computeDropSet final_side_weight bar_weight 100).remaining_weight
        = (computeDropSet final_side_weight bar_weight 100).final_set_weight := by
  refine ⟨?_, ?_, ?_⟩ <;> simp only [computeDropSet] <;> ring

/-- C9 counterexample: saving two configurations under the same name "a"
leaves the store with two presets sharing that name — `save_configuration`
appends unconditionally (line 101), so the name is not a unique key. -/
theorem preset_names_not_unique :
    ¬ uniqueNames
      (save_configuration "a" 70 "Olympic (20kg/44lbs)" 75
        (save_configuration "a" 60 "Standard (45lbs)" 50 [])) := by
  simp [uniqueNames, save_configuration]

/-- C9 amended: names need not be unique in the store; saving under a name
that already exists appends a duplicate, and loading by name selects the
FIRST stored preset with that name, so a later duplicate save does not
change what loading returns. -/
theorem selectConfig_first_match_stable (n : String) (f : ℚ) (b : String)
    (p : ℚ) (st : List Config) (h : ∃ c ∈ st, c.name = n) :
    selectConfig n (save_configuration n f b p st) = selectConfig n st := by
  simp only [save_configuration]
  exact selectConfig_append n st _ h

/-- Witness for the amended C9: a store already holding a preset named
"a" is unaffected (for loading "a") by a second save under "a". -/
theorem selectConfig_first_match_stable_witness :
    (∃ c ∈ [Config.mk "a" 1 "x" 2], c.name = "a") ∧
      selectConfig "a"
          (save_configuration "a" 9 "y" 9 [Config.mk "a" 1 "x" 2])
        = selectConfig "a" [Config.mk "a" 1 "x" 2] := by
  have h : ∃ c ∈ [Config.mk "a" 1 "x" 2], c.name = "a" :=
    ⟨Config.mk "a" 1 "x" 2, List.mem_singleton.mpr rfl, rfl⟩
  exact ⟨h, selectConfig_first_match_stable "a" 9 "y" 9 _ h⟩

/-- C10: the plate list returned by `calculate_plates` is in non-increasing
order of plate weight (so plates of one denomination form a single
contiguous run, and runs appear in descending denomination order); `main`
passes these lists unchanged to the chart renderer. -/
theorem calculate_plates_sorted (target_weight bar_weight : ℚ) :
    (calculate_plates target_weight bar_weight).Sorted (· ≥ ·) := by
  have hD : PLATES_LBS.Sorted (· > ·) := by
    norm_num [PLATES_LBS, List.sorted_cons]
  simp only [calculate_plates]
  split
  · exact List.sorted_nil
  · exact greedy_sorted _ _ hD
